import Mathlib

/-!
Verification of the Monte Carlo orchestration engine of RocketPy
(`rocketpy/simulation/monte_carlo.py`).

The Python source is shallowly embedded: files are lists of already-parsed
JSON records (one record per line), Python dictionaries are ordered
association lists with unique keys, the sequential `simulate` loop is a
fuel-indexed structural recursion whose fuel is the exact number of
remaining iterations (`number_of_simulations - iteration_count`), and the
parallel worker is modelled by the list of trial indices it iterates
(`range(worker_no, n_sim, n_workers)`) together with the ordered event
trace its loop body produces.
-/

namespace MonteCarlo

/-- A JSON-style record: an ordered association list from field names to
values, modelling a Python `dict` (keys are unique in every record that
originates from a Python `dict`). -/
abbrev Record (α : Type) := List (String × α)

/-- Membership test for a key, modelling Python's `key in dict`. -/
def hasKey (k : String) (d : List (String × β)) : Bool :=
  d.any (fun p => p.1 == k)

/-- Value lookup, modelling Python's `dict[key]`. -/
def lookupVal (k : String) : List (String × β) → Option β
  | [] => none
  | p :: rest => if p.1 == k then some p.2 else lookupVal k rest

/-- Python dictionary assignment `d[k] = v`: replaces the value in place
when the key is present, appends a new entry otherwise (insertion order
is preserved, as for `dict`). -/
def dictAssign (d : List (String × β)) (k : String) (v : β) : List (String × β) :=
  if hasKey k d then d.map (fun p => if p.1 == k then (k, v) else p)
  else d ++ [(k, v)]

/-! ### Parallel work partition (`_run_simulation_worker`, lines 316-378)

Worker `worker_no` iterates `for i in range(worker_no, n_sim, n_workers)`.
`pyRange start stop step` is Python's `range` for a positive step. -/

/-- Python `range(start, stop, step)` for a positive `step`. -/
def pyRange (start stop step : ℕ) : List ℕ :=
  if h : 0 < step ∧ start < stop then start :: pyRange (start + step) stop step
  else []
termination_by stop - start
decreasing_by omega

/-! ### Lock discipline of the parallel worker (C8)

The body of the worker loop (lines 330-378) performs, in program order:
sampling of the stochastic objects, the `Flight` simulation, serialization
of the results, `write_lock.acquire()`, the HDF5 append,
`write_lock.release()`, and the progress print.  The trace of one worker
is the concatenation of that event block, one block per assigned trial
index. -/

inductive WorkerEvent where
  | sample
  | compute
  | serialize
  | acquireLock
  | writeOutput
  | releaseLock
  | progress
deriving DecidableEq

/-- The ordered events of one loop-body iteration of
`_run_simulation_worker`. -/
def trial_events : List WorkerEvent :=
  [.sample, .compute, .serialize, .acquireLock, .writeOutput, .releaseLock, .progress]

/-- The event trace of worker `worker_no`: one `trial_events` block per
index in `range(worker_no, n_sim, n_workers)`. -/
def worker_trace (worker_no n_sim n_workers : ℕ) : List WorkerEvent :=
  (pyRange worker_no n_sim n_workers).foldr (fun _ acc => trial_events ++ acc) []

/-- Checks the lock protocol along a trace, given whether the lock is
currently held: the file append happens only while the lock is held, the
lock is never held during sampling, simulation compute, serialization or
progress printing, acquire/release strictly alternate, and the trace ends
with the lock released. -/
def lock_protocol_ok : Bool → List WorkerEvent → Bool
  | held, [] => !held
  | held, .acquireLock :: rest => !held && lock_protocol_ok true rest
  | held, .releaseLock :: rest => held && lock_protocol_ok false rest
  | held, .writeOutput :: rest => held && lock_protocol_ok held rest
  | held, .sample :: rest => !held && lock_protocol_ok held rest
  | held, .compute :: rest => !held && lock_protocol_ok held rest
  | held, .serialize :: rest => !held && lock_protocol_ok held rest
  | held, .progress :: rest => !held && lock_protocol_ok held rest

/-! ### The structured hierarchical sink writer (`dict_to_h5`, lines 885-902)

Python values reaching `dict_to_h5` are modelled by `HVal`; nested
dictionaries by the mutually inductive `HEntries` (ordered key/value
entries).  The `isinstance` tuple of line 892 is `isH5Primitive`; the
rocketpy `Function` class is the `func` constructor; every other Python
value (lists, tuples, sets, `None`, arbitrary objects, bound methods, …)
is `other` with a descriptive tag. -/

mutual
inductive HVal : Type where
  | ndarray (data : List ℚ)
  | npInt (n : ℤ)
  | npFloat (q : ℚ)
  | str (s : String)
  | bytes (b : List ℕ)
  | int (n : ℤ)
  | float (q : ℚ)
  | func (id : ℕ)
  | dict (entries : HEntries)
  | other (tag : String)

inductive HEntries : Type where
  | nil
  | cons (key : String) (val : HVal) (rest : HEntries)
end

/-- The `isinstance(item, (np.ndarray, np.int64, np.float64, str, bytes,
int, float))` test of line 892. -/
def isH5Primitive : HVal → Bool
  | .ndarray _ => true
  | .npInt _ => true
  | .npFloat _ => true
  | .str _ => true
  | .bytes _ => true
  | .int _ => true
  | .float _ => true
  | .func _ => false
  | .dict _ => false
  | .other _ => false

/-- `MonteCarlo.dict_to_h5`: iterates the entries of a dictionary; a
primitive value is assigned to `h5_file[path + key]`, a `Function` value
raises `TypeError`, a nested dictionary recurses under `path + key + "/"`,
and anything else hits the `else: pass` branch (spelled out per
constructor; the primitive constructors never reach that match).  A
successful run returns the list of HDF5 assignments performed, in order;
a raised exception is an `Except.error` carrying the exception message. -/
def dict_to_h5 (path : String) : HEntries → Except String (List (String × HVal))
  | .nil => .ok []
  | .cons key item rest =>
    if isH5Primitive item then
      (dict_to_h5 path rest).map (fun ws => (path ++ key, item) :: ws)
    else
      match item with
      | .func _ => .error "Function objects should be preprocessed before saving."
      | .dict sub =>
        (dict_to_h5 (path ++ key ++ "/") sub).bind
          (fun ws1 => (dict_to_h5 path rest).map (fun ws2 => ws1 ++ ws2))
      | .other _ => dict_to_h5 path rest
      | .ndarray _ => dict_to_h5 path rest
      | .npInt _ => dict_to_h5 path rest
      | .npFloat _ => dict_to_h5 path rest
      | .str _ => dict_to_h5 path rest
      | .bytes _ => dict_to_h5 path rest
      | .int _ => dict_to_h5 path rest
      | .float _ => dict_to_h5 path rest
termination_by d => sizeOf d

mutual
/-- Whether a value is, or contains (inside nested dictionaries), a
`Function` value. -/
def valHasFunction : HVal → Bool
  | .func _ => true
  | .dict entries => hasFunctionValue entries
  | .ndarray _ => false
  | .npInt _ => false
  | .npFloat _ => false
  | .str _ => false
  | .bytes _ => false
  | .int _ => false
  | .float _ => false
  | .other _ => false

/-- Whether a `Function` value occurs anywhere in the entry tree. -/
def hasFunctionValue : HEntries → Bool
  | .nil => false
  | .cons _ v rest => valHasFunction v || hasFunctionValue rest
end

/-! ### ResultStore reload and aggregation (lines 626-671)

A log file on disk is a list of lines; `json.loads` is an abstract
per-line parser.  `set_outputs_log` models the parsing loop of lines
633-638, `set_num_of_loaded_sims` the line count of lines 647-650,
`set_results` the aggregation loop of lines 652-662 and
`set_processed_results` the statistics loop of lines 664-671 (per-field;
values are exact rationals, `np.mean`/`np.std` are the arithmetic mean
and the population standard deviation over the reals). -/

/-- `set_outputs_log` (also `set_inputs_log`/`set_errors_log`, which have
the same shape): parses every line of the file into a record. -/
def set_outputs_log (jsonLoads : L → Record α) (lines : List L) : List (Record α) :=
  lines.map jsonLoads

/-- `set_num_of_loaded_sims`: `sum(1 for _ in outputs)`. -/
def set_num_of_loaded_sims (lines : List L) : ℕ :=
  lines.foldl (fun n _ => n + 1) 0

/-- One step of the `set_results` loop: append `value` to
`results[key]` when the key is present, create `results[key] = [value]`
otherwise. -/
def add_result (results : List (String × List α)) (key : String) (value : α) :
    List (String × List α) :=
  if hasKey key results then
    results.map (fun p => if p.1 == key then (p.1, p.2 ++ [value]) else p)
  else results ++ [(key, [value])]

/-- `set_results`: folds every key/value item of every output record, in
order, into the `results` dictionary. -/
def set_results (outputs_log : List (Record α)) : List (String × List α) :=
  outputs_log.foldl
    (fun res record => record.foldl (fun res2 kv => add_result res2 kv.1 kv.2) res) []

/-- `np.mean(values)`: arithmetic mean. -/
def np_mean (vs : List ℚ) : ℚ := vs.sum / (vs.length : ℚ)

/-- The radicand of `np.std(values)`: the population variance
`mean((v - mean(values))**2)` (`ddof = 0`). -/
def np_var (vs : List ℚ) : ℚ :=
  ((vs.map (fun v => (v - np_mean vs) ^ 2)).sum) / (vs.length : ℚ)

/-- `np.std(values)`: population standard deviation. -/
noncomputable def np_std (vs : List ℚ) : ℝ := Real.sqrt ((np_var vs : ℚ) : ℝ)

/-- `set_processed_results`: maps each field of `results` to the pair
`(np.mean(values), np.std(values))`. -/
noncomputable def set_processed_results (results : List (String × List ℚ)) :
    List (String × (ℚ × ℝ)) :=
  results.map (fun p => (p.1, (np_mean p.2, np_std p.2)))

/-! ### The sequential driver (`simulate`, lines 163-214, with
`__run_single_simulation` lines 380-424 and `__finalize_simulation`
lines 432-450)

A trial either completes — producing the `_inputs_dict` line written to
the inputs file and the results line written to the outputs file — or
raises an exception `exc` (any non-interrupt exception escaping
`__run_single_simulation`), carrying the input line if the raise happened
between the two writes of `__export_flight_data` and the value
`self._inputs_dict` holds when the exception reaches the `except` block.
The `while` loop of lines 198-199 is compiled to a fuel recursion whose
fuel is the exact number of remaining iterations,
`number_of_simulations - iteration_count` (each iteration increments the
counter by one, so the fuel is exact, not an approximation). -/

/-- Outcome of one call to `__run_single_simulation`. -/
inductive TrialOutcome (ε α : Type) where
  | ok (inputsDict : Record α) (outputsDict : Record α)
  | raised (exc : ε) (inputLineWritten : Option (Record α)) (inputsDictAtRaise : Record α)

/-- The three open log files of a sequential run. -/
structure OpenFiles (α : Type) where
  inputs : List (Record α)
  outputs : List (Record α)
  errors : List (Record α)
deriving DecidableEq

/-- The persistent state of a `MonteCarlo` object: the three files on
disk, the in-memory logs, `num_of_loaded_sims`, `results` and the
iteration counter. -/
structure McState (α : Type) where
  inputsFile : List (Record α)
  outputsFile : List (Record α)
  errorFile : List (Record α)
  numLoaded : ℕ
  inputsLog : List (Record α)
  outputsLog : List (Record α)
  errorsLog : List (Record α)
  results : List (String × List α)
  iterationCount : ℕ
deriving DecidableEq

/-- Result of a sequential `simulate` call: either normal completion, or
an exception re-raised to the caller after the error line was written and
the files were closed. -/
inductive SimResult (ε α : Type) where
  | completed (st : McState α)
  | errored (exc : ε) (closedFiles : OpenFiles α)
deriving DecidableEq

/-- Line 190: `self.iteration_count = self.num_of_loaded_sims if append
else 0`. -/
def initialIterationCount (append : Bool) (numLoaded : ℕ) : ℕ :=
  if append then numLoaded else 0

/-- The `while self.iteration_count < self.number_of_simulations` loop:
each iteration increments the counter, runs the trial for the new count,
and appends the input and output lines; a raised exception stops the
loop, keeping any input line written before the raise.  `fuel` is the
exact number of remaining iterations. -/
def simLoopAux (trial : ℕ → TrialOutcome ε α) (M : ℕ) :
    ℕ → ℕ → OpenFiles α → ℕ × OpenFiles α × Option (ε × Record α)
  | 0, count, f => (count, f, none)
  | fuel + 1, count, f =>
    if count < M then
      match trial (count + 1) with
      | .ok i o =>
        simLoopAux trial M fuel (count + 1) ⟨f.inputs ++ [i], f.outputs ++ [o], f.errors⟩
      | .raised e w d =>
        (count + 1, ⟨f.inputs ++ w.toList, f.outputs, f.errors⟩, some (e, d))
    else (count, f, none)

/-- The sequential loop, entered at `iteration_count = count`. -/
def simLoop (trial : ℕ → TrialOutcome ε α) (M count : ℕ) (f : OpenFiles α) :
    ℕ × OpenFiles α × Option (ε × Record α) :=
  simLoopAux trial M (M - count) count f

/-- `__finalize_simulation`: closes the files and reassigns the three
file-path attributes, whose setters reload the logs,
`num_of_loaded_sims` and `results` from the files. -/
def finalize_simulation (count : ℕ) (f : OpenFiles α) : McState α :=
  { inputsFile := f.inputs
    outputsFile := f.outputs
    errorFile := f.errors
    numLoaded := set_num_of_loaded_sims f.outputs
    inputsLog := set_outputs_log id f.inputs
    outputsLog := set_outputs_log id f.outputs
    errorsLog := set_outputs_log id f.errors
    results := set_results f.outputs
    iterationCount := count }

/-- The sequential branch of `MonteCarlo.simulate`: opens the three
files in write or append mode, initializes the iteration counter, runs
the loop; on normal completion it finalizes (reload included); on an
exception it writes `self._inputs_dict` as one line to the error file,
closes the three files, and re-raises the same exception. -/
def simulate (M : ℕ) (append : Bool) (trial : ℕ → TrialOutcome ε α) (st : McState α) :
    SimResult ε α :=
  let f0 : OpenFiles α :=
    if append then ⟨st.inputsFile, st.outputsFile, st.errorFile⟩ else ⟨[], [], []⟩
  match simLoop trial M (initialIterationCount append st.numLoaded) f0 with
  | (count, f, none) => .completed (finalize_simulation count f)
  | (_, f, some (e, d)) => .errored e ⟨f.inputs, f.outputs, f.errors ++ [d]⟩

/-- A trial source that never raises. -/
def okTrials (inp out : ℕ → Record α) : ℕ → TrialOutcome Unit α :=
  fun j => .ok (inp j) (out j)

/-- `simulate` specialized to never-raising trials (it always
completes). -/
def simulate_ok (M : ℕ) (append : Bool) (inp out : ℕ → Record α) (st : McState α) :
    McState α :=
  match simulate M append (okTrials inp out) st with
  | .completed s => s
  | .errored _ _ => st

/-- A concrete input-line source used for concrete runs. -/
def demo_inputs : ℕ → Record ℕ := fun j => [("rail_length", j)]

/-- A concrete output-line source used for concrete runs. -/
def demo_outputs : ℕ → Record ℕ := fun j => [("apogee", j)]

/-- A fresh `MonteCarlo` state: no files, nothing loaded. -/
def empty_state : McState ℕ := ⟨[], [], [], 0, [], [], [], [], 0⟩

/-! ### Export-list validation (`__check_export_list`, lines 470-559)
and the sequential output record (`__export_flight_data`, lines 452-468)

An element of a user-supplied `export_list` is either a string or some
non-string value (`nonString`, tagged with its Python type name).  The
code iterates `set(export_list)`; the model iterates the list in order,
which agrees with the code whenever the list does not mix both kinds of
invalid entry (CPython set order is unspecified, so the code fixes no
error choice in the mixed case, and the claim takes each scenario
separately). -/

/-- An element of a user-supplied `export_list`. -/
inductive ExportItem where
  | str (s : String)
  | nonString (tag : String)
deriving DecidableEq

/-- The exception raised by `__check_export_list`. -/
inductive ExportListError where
  | typeError (msg : String)
  | valueError (msg : String)
deriving DecidableEq

/-- The `standard_output` default set (lines 473-494; commented-out
entries excluded). -/
def standard_output : List String :=
  ["apogee", "apogee_time", "apogee_x", "apogee_y", "t_final", "x_impact",
    "y_impact", "impact_velocity", "out_of_rail_time", "out_of_rail_velocity",
    "max_mach_number", "frontal_surface_wind", "lateral_surface_wind"]

/-- The fixed `exportables` allow-list (lines 495-544). -/
def exportables : List String :=
  ["inclination", "heading", "effective1rl", "effective2rl",
    "out_of_rail_time", "out_of_rail_time_index", "out_of_rail_state",
    "out_of_rail_velocity", "rail_button1_normal_force",
    "max_rail_button1_normal_force", "rail_button1_shear_force",
    "max_rail_button1_shear_force", "rail_button2_normal_force",
    "max_rail_button2_normal_force", "rail_button2_shear_force",
    "max_rail_button2_shear_force", "out_of_rail_static_margin",
    "apogee_state", "apogee_time", "apogee_x", "apogee_y", "apogee",
    "x_impact", "y_impact", "z_impact", "impact_velocity", "impact_state",
    "parachute_events", "apogee_freestream_speed", "final_static_margin",
    "frontal_surface_wind", "initial_static_margin", "lateral_surface_wind",
    "max_acceleration", "max_acceleration_time", "max_dynamic_pressure_time",
    "max_dynamic_pressure", "max_mach_number_time", "max_mach_number",
    "max_reynolds_number_time", "max_reynolds_number", "max_speed_time",
    "max_speed", "max_total_pressure_time", "max_total_pressure", "t_final"]

/-- The validation loop of lines 546-554: the first non-string entry
raises `TypeError`, the first string entry outside `exportables` raises
`ValueError` (with the attribute name in the message). -/
def check_items : List ExportItem → Option ExportListError
  | [] => none
  | .nonString _ :: _ => some (.typeError "Variables in export_list must be strings.")
  | .str s :: rest =>
    if s ∈ exportables then check_items rest
    else some (.valueError ("Attribute " ++ s ++ " can not be exported. Check export_list."))

/-- `__check_export_list`: an empty (falsy) list selects the default
`standard_output` list; otherwise the entries are validated and the
user's list is returned unchanged. -/
def check_export_list (export_list : List ExportItem) :
    Except ExportListError (List ExportItem) :=
  if export_list = [] then .ok (standard_output.map ExportItem.str)
  else
    match check_items export_list with
    | some err => .error err
    | none => .ok export_list

/-- The output record built by `__export_flight_data` (lines 461-464):
the dict comprehension `{item: getattr(flight, item) for item in
self.export_list}`, as a fold of dictionary assignments. -/
def export_flight_data (export_list : List String) (flight : String → β) : Record β :=
  export_list.foldl (fun results item => dictAssign results item (flight item)) []

/-! ### Reflective attribute inspection (`inspect_object_attributes`,
lines 870-883) and the parallel export record (lines 352-363)

A Python attribute value is a `PyVal`; `dir(obj)` is a list of
name/value pairs with distinct names.  `isinstance(value, (int, float,
tuple, list, dict, object))` dispatches on the `PyClass` list — the
trailing `object` class matches every value. -/

/-- A Python runtime value, as classified by `isinstance`. -/
inductive PyVal where
  | int (n : ℤ)
  | float (q : ℚ)
  | tuple (size : ℕ)
  | list (size : ℕ)
  | dict (size : ℕ)
  | func (id : ℕ)
  | funcSerialized (id : ℕ)
  | obj (tag : String)
deriving DecidableEq

/-- The classes appearing in the `isinstance` tuple of line 876. -/
inductive PyClass where
  | intClass
  | floatClass
  | tupleClass
  | listClass
  | dictClass
  | objectClass
deriving DecidableEq

/-- `isinstance(v, c)` for a single class: in Python every value is an
instance of `object`. -/
def isinstance_one : PyVal → PyClass → Bool
  | .int _, .intClass => true
  | .float _, .floatClass => true
  | .tuple _, .tupleClass => true
  | .list _, .listClass => true
  | .dict _, .dictClass => true
  | _, .objectClass => true
  | _, _ => false

/-- `isinstance(v, (c1, ..., cn))`. -/
def isinstance_any (v : PyVal) (classes : List PyClass) : Bool :=
  classes.any (isinstance_one v)

/-- The tuple `(int, float, tuple, list, dict, object)` of line 876. -/
def inspect_filter_classes : List PyClass :=
  [.intClass, .floatClass, .tupleClass, .listClass, .dictClass, .objectClass]

/-- `function_serializer` from `rocketpy.simulation.sim_config.serializer`
(abstract: it maps a `Function` to its serialized form). -/
def function_serializer (id : ℕ) : PyVal := .funcSerialized id

/-- Lines 879-882: a `Function` value is replaced by its serialized form,
every other value is stored as-is. -/
def serialize_if_function : PyVal → PyVal
  | .func i => function_serializer i
  | .int n => .int n
  | .float q => .float q
  | .tuple s => .tuple s
  | .list s => .list s
  | .dict s => .dict s
  | .funcSerialized i => .funcSerialized i
  | .obj t => .obj t

/-- `attr_name.startswith("__")`: the first two characters are both
underscores. -/
def starts_with_dunder (s : String) : Bool :=
  match s.data with
  | c1 :: c2 :: _ => c1 == '_' && c2 == '_'
  | _ => false

/-- `MonteCarlo.inspect_object_attributes`: iterates `dir(obj)` and
stores every attribute whose value passes the `isinstance` filter and
whose name does not start with `"__"`. -/
def inspect_object_attributes (attrs : List (String × PyVal)) : List (String × PyVal) :=
  attrs.foldl
    (fun result p =>
      if isinstance_any p.2 inspect_filter_classes && !(starts_with_dunder p.1) then
        dictAssign result p.1 (serialize_if_function p.2)
      else result)
    []

/-- One trial's entry in the structured sink. -/
structure WorkerEntry (β : Type) where
  inputs : Record β
  outputs : Record β

/-- The `export_dict` built by the parallel worker (lines 358-363): keyed
by the trial index, with the serialized flight as `"inputs"` and the full
attribute inspection of the `Flight` object as `"outputs"` — the
constructor-validated `export_list` plays no part here. -/
def worker_export_dict (i : ℕ) (input_parameters : Record PyVal)
    (flightAttrs : List (String × PyVal)) : String × WorkerEntry PyVal :=
  (toString i, ⟨input_parameters, inspect_object_attributes flightAttrs⟩)

/-! ## Theorems -/

theorem mem_pyRange (step : ℕ) (hstep : 0 < step) :
    ∀ (start stop i : ℕ),
      i ∈ pyRange start stop step ↔ ∃ j, i = start + j * step ∧ i < stop := by
  suffices h : ∀ (m start stop : ℕ), stop - start ≤ m → ∀ i,
      i ∈ pyRange start stop step ↔ ∃ j, i = start + j * step ∧ i < stop by
    intro start stop i
    exact h (stop - start) start stop le_rfl i
  intro m
  induction m with
  | zero =>
    intro start stop hle i
    rw [pyRange]
    have hlt : ¬ start < stop := by omega
    simp only [hstep, hlt, and_false, true_and, dite_false, List.not_mem_nil, false_iff]
    rintro ⟨j, rfl, hjlt⟩
    omega
  | succ m ih =>
    intro start stop hle i
    rw [pyRange]
    by_cases hlt : start < stop
    · simp only [hstep, hlt, and_self, dite_true, List.mem_cons]
      have hrec := ih (start + step) stop (by omega) i
      constructor
      · rintro (rfl | hmem)
        · exact ⟨0, by simp, hlt⟩
        · obtain ⟨j, hj, hjlt⟩ := hrec.mp hmem
          refine ⟨j + 1, ?_, hjlt⟩
          rw [hj]
          ring
      · rintro ⟨j, rfl, hjlt⟩
        cases j with
        | zero => left; simp
        | succ j' =>
          right
          refine hrec.mpr ⟨j', by ring, hjlt⟩
    · simp only [hlt, and_false, dite_false, List.not_mem_nil, false_iff]
      rintro ⟨j, rfl, hjlt⟩
      omega

theorem pyRange_nodup (step : ℕ) (hstep : 0 < step) :
    ∀ (start stop : ℕ), (pyRange start stop step).Nodup := by
  suffices h : ∀ (m start stop : ℕ), stop - start ≤ m →
      (pyRange start stop step).Nodup by
    intro start stop
    exact h (stop - start) start stop le_rfl
  intro m
  induction m with
  | zero =>
    intro start stop hle
    rw [pyRange]
    have hlt : ¬ start < stop := by omega
    simp [hlt]
  | succ m ih =>
    intro start stop hle
    rw [pyRange]
    by_cases hlt : start < stop
    · simp only [hstep, hlt, and_self, dite_true, List.nodup_cons]
      refine ⟨fun hmem => ?_, ih (start + step) stop (by omega)⟩
      obtain ⟨j, hj, _⟩ := (mem_pyRange step hstep (start + step) stop start).mp hmem
      omega
    · simp [hlt]

/-- Claim C7: the round-robin static partition used by the parallel
workers — worker `w` iterates `range(w, total_trials, worker_count)` —
assigns every trial index in `[0, total_trials)` to exactly one worker:
the per-worker index sets are pairwise disjoint, their union is exactly
`[0, total_trials)`, and no worker repeats an index. -/
theorem partition_exact (total_trials worker_count : ℕ) (hW : 0 < worker_count) :
    (∀ w1 w2 i, w1 < worker_count → w2 < worker_count →
      i ∈ pyRange w1 total_trials worker_count →
      i ∈ pyRange w2 total_trials worker_count → w1 = w2) ∧
    (∀ i, (∃ w, w < worker_count ∧ i ∈ pyRange w total_trials worker_count) ↔
      i < total_trials) ∧
    (∀ w, w < worker_count → (pyRange w total_trials worker_count).Nodup) := by
  refine ⟨?_, ?_, ?_⟩
  · intro w1 w2 i h1 h2 hm1 hm2
    obtain ⟨j1, hj1, _⟩ := (mem_pyRange worker_count hW w1 total_trials i).mp hm1
    obtain ⟨j2, hj2, _⟩ := (mem_pyRange worker_count hW w2 total_trials i).mp hm2
    have e1 : i % worker_count = w1 := by
      rw [hj1, Nat.add_mul_mod_self_right, Nat.mod_eq_of_lt h1]
    have e2 : i % worker_count = w2 := by
      rw [hj2, Nat.add_mul_mod_self_right, Nat.mod_eq_of_lt h2]
    omega
  · intro i
    constructor
    · rintro ⟨w, _, hmem⟩
      obtain ⟨j, _, hjlt⟩ := (mem_pyRange worker_count hW w total_trials i).mp hmem
      exact hjlt
    · intro hi
      refine ⟨i % worker_count, Nat.mod_lt i hW, ?_⟩
      exact (mem_pyRange worker_count hW (i % worker_count) total_trials i).mpr
        ⟨i / worker_count, (Nat.mod_add_div' i worker_count).symm, hi⟩
  · intro w _
    exact pyRange_nodup worker_count hW w total_trials

/-- Witness for C7 at the spec's example `total_trials = 10`,
`worker_count = 3`. -/
theorem partition_exact_witness :
    0 < 3 ∧
    ((∀ w1 w2 i, w1 < 3 → w2 < 3 →
        i ∈ pyRange w1 10 3 → i ∈ pyRange w2 10 3 → w1 = w2) ∧
      (∀ i, (∃ w, w < 3 ∧ i ∈ pyRange w 10 3) ↔ i < 10) ∧
      (∀ w, w < 3 → (pyRange w 10 3).Nodup)) :=
  ⟨by decide, partition_exact 10 3 (by decide)⟩

theorem lock_protocol_ok_blocks :
    ∀ l : List ℕ, lock_protocol_ok false (l.foldr (fun _ acc => trial_events ++ acc) []) = true := by
  intro l
  induction l with
  | nil => rfl
  | cons x xs ih =>
    simp only [List.foldr_cons, trial_events, List.cons_append, List.nil_append]
    simp only [lock_protocol_ok, Bool.not_false, Bool.true_and, Bool.and_self]
    exact ih

/-- Claim C8: in every worker trace, each append to the shared output
sink occurs strictly inside an acquire/release window, and the window
contains nothing but the append — in particular the lock is never held
during sampling, the simulation computation, serialization, or progress
printing. -/
theorem lock_scope_minimal (worker_no n_sim n_workers : ℕ) :
    lock_protocol_ok false (worker_trace worker_no n_sim n_workers) = true :=
  lock_protocol_ok_blocks (pyRange worker_no n_sim n_workers)

theorem dict_to_h5_no_function_ok (path : String) (d : HEntries)
    (h : hasFunctionValue d = false) :
    ∃ ws, dict_to_h5 path d = .ok ws := by
  cases d with
  | nil => exact ⟨[], by rw [dict_to_h5]⟩
  | cons key item rest =>
    rw [hasFunctionValue, Bool.or_eq_false_iff] at h
    obtain ⟨hval, hrest⟩ := h
    obtain ⟨ws, hws⟩ := dict_to_h5_no_function_ok path rest hrest
    cases item with
    | func i => simp [valHasFunction] at hval
    | dict sub =>
      have hsub : hasFunctionValue sub = false := by
        simpa [valHasFunction] using hval
      obtain ⟨ws1, hws1⟩ := dict_to_h5_no_function_ok (path ++ key ++ "/") sub hsub
      exact ⟨ws1 ++ ws, by
        rw [dict_to_h5]
        simp [isH5Primitive, hws1, hws, Except.bind, Except.map]⟩
    | other t => exact ⟨ws, by rw [dict_to_h5]; simp [isH5Primitive, hws]⟩
    | ndarray a =>
      exact ⟨(path ++ key, .ndarray a) :: ws, by
        rw [dict_to_h5]; simp [isH5Primitive, hws, Except.map]⟩
    | npInt n =>
      exact ⟨(path ++ key, .npInt n) :: ws, by
        rw [dict_to_h5]; simp [isH5Primitive, hws, Except.map]⟩
    | npFloat q =>
      exact ⟨(path ++ key, .npFloat q) :: ws, by
        rw [dict_to_h5]; simp [isH5Primitive, hws, Except.map]⟩
    | str s =>
      exact ⟨(path ++ key, .str s) :: ws, by
        rw [dict_to_h5]; simp [isH5Primitive, hws, Except.map]⟩
    | bytes b =>
      exact ⟨(path ++ key, .bytes b) :: ws, by
        rw [dict_to_h5]; simp [isH5Primitive, hws, Except.map]⟩
    | int n =>
      exact ⟨(path ++ key, .int n) :: ws, by
        rw [dict_to_h5]; simp [isH5Primitive, hws, Except.map]⟩
    | float q =>
      exact ⟨(path ++ key, .float q) :: ws, by
        rw [dict_to_h5]; simp [isH5Primitive, hws, Except.map]⟩
termination_by sizeOf d

theorem dict_to_h5_function_error (path : String) (d : HEntries)
    (h : hasFunctionValue d = true) :
    dict_to_h5 path d = .error "Function objects should be preprocessed before saving." := by
  cases d with
  | nil => simp [hasFunctionValue] at h
  | cons key item rest =>
    rw [hasFunctionValue] at h
    cases item with
    | func i => rw [dict_to_h5]; simp [isH5Primitive]
    | dict sub =>
      by_cases hsub : hasFunctionValue sub = true
      · have ih := dict_to_h5_function_error (path ++ key ++ "/") sub hsub
        rw [dict_to_h5]
        simp [isH5Primitive, ih, Except.bind]
      · have hsub' : hasFunctionValue sub = false := by
          revert hsub
          cases hasFunctionValue sub <;> simp
        have hrest : hasFunctionValue rest = true := by
          rw [valHasFunction, hsub'] at h
          simpa using h
        obtain ⟨ws1, hws1⟩ := dict_to_h5_no_function_ok (path ++ key ++ "/") sub hsub'
        have ih := dict_to_h5_function_error path rest hrest
        rw [dict_to_h5]
        simp [isH5Primitive, hws1, ih, Except.bind, Except.map]
    | other t =>
      have hrest : hasFunctionValue rest = true := by
        rw [valHasFunction] at h
        simpa using h
      have ih := dict_to_h5_function_error path rest hrest
      rw [dict_to_h5]
      simp [isH5Primitive, ih]
    | ndarray a =>
      have hrest : hasFunctionValue rest = true := by
        rw [valHasFunction] at h
        simpa using h
      have ih := dict_to_h5_function_error path rest hrest
      rw [dict_to_h5]
      simp [isH5Primitive, ih, Except.map]
    | npInt n =>
      have hrest : hasFunctionValue rest = true := by
        rw [valHasFunction] at h
        simpa using h
      have ih := dict_to_h5_function_error path rest hrest
      rw [dict_to_h5]
      simp [isH5Primitive, ih, Except.map]
    | npFloat q =>
      have hrest : hasFunctionValue rest = true := by
        rw [valHasFunction] at h
        simpa using h
      have ih := dict_to_h5_function_error path rest hrest
      rw [dict_to_h5]
      simp [isH5Primitive, ih, Except.map]
    | str s =>
      have hrest : hasFunctionValue rest = true := by
        rw [valHasFunction] at h
        simpa using h
      have ih := dict_to_h5_function_error path rest hrest
      rw [dict_to_h5]
      simp [isH5Primitive, ih, Except.map]
    | bytes b =>
      have hrest : hasFunctionValue rest = true := by
        rw [valHasFunction] at h
        simpa using h
      have ih := dict_to_h5_function_error path rest hrest
      rw [dict_to_h5]
      simp [isH5Primitive, ih, Except.map]
    | int n =>
      have hrest : hasFunctionValue rest = true := by
        rw [valHasFunction] at h
        simpa using h
      have ih := dict_to_h5_function_error path rest hrest
      rw [dict_to_h5]
      simp [isH5Primitive, ih, Except.map]
    | float q =>
      have hrest : hasFunctionValue rest = true := by
        rw [valHasFunction] at h
        simpa using h
      have ih := dict_to_h5_function_error path rest hrest
      rw [dict_to_h5]
      simp [isH5Primitive, ih, Except.map]
termination_by sizeOf d

/-- Counterexample to claim C2 as stated: a leaf value that is neither a
supported primitive, nor a `Function`, nor a nested mapping — here a
plain Python `list` — does not raise any error: `dict_to_h5` silently
skips it (the run succeeds and performs no assignment at all). -/
theorem dict_to_h5_silent_skip_counterexample :
    isH5Primitive (HVal.other "list") = false ∧
    dict_to_h5 "/" (.cons "x" (HVal.other "list") .nil) = .ok [] := by
  constructor
  · rfl
  · rw [dict_to_h5]
    simp [isH5Primitive, dict_to_h5]

/-- Claim C2, amended: only `Function`-valued leaves make the structured
sink writer fail fast (with the classified `TypeError` message
`"Function objects should be preprocessed before saving."`), and a
dictionary free of `Function` values always succeeds; every other
unsupported leaf value is silently skipped by the `else: pass` branch —
it produces no assignment and no error — while primitive leaves are
assigned under `path + key`. -/
theorem dict_to_h5_error_behavior (path key tag : String) (v : HVal) (d rest : HEntries) :
    (hasFunctionValue d = true →
      dict_to_h5 path d = .error "Function objects should be preprocessed before saving.") ∧
    (hasFunctionValue d = false → ∃ ws, dict_to_h5 path d = .ok ws) ∧
    (dict_to_h5 path (.cons key (HVal.other tag) d) = dict_to_h5 path d) ∧
    (isH5Primitive v = true → hasFunctionValue rest = false →
      ∃ ws, dict_to_h5 path (.cons key v rest) = .ok ((path ++ key, v) :: ws)) := by
  refine ⟨dict_to_h5_function_error path d, dict_to_h5_no_function_ok path d, ?_, ?_⟩
  · rw [dict_to_h5]
    simp [isH5Primitive]
  · intro hp hrest
    obtain ⟨ws, hws⟩ := dict_to_h5_no_function_ok path rest hrest
    refine ⟨ws, ?_⟩
    cases v <;> simp [isH5Primitive] at hp <;>
      (rw [dict_to_h5]; simp [isH5Primitive, hws, Except.map])

/-- Witness for the amended C2: a `Function` leaf raises the classified
error, a `Function`-free dictionary succeeds, an unsupported leaf is
skipped, and a primitive leaf is written. -/
theorem dict_to_h5_error_behavior_witness :
    (dict_to_h5 "/" (.cons "f" (HVal.func 0) .nil) =
      .error "Function objects should be preprocessed before saving.") ∧
    (∃ ws, dict_to_h5 "/" (.cons "a" (HVal.int 1) .nil) = .ok ws) ∧
    (dict_to_h5 "/" (.cons "m" (HVal.other "method") .nil) = dict_to_h5 "/" .nil) ∧
    (∃ ws, dict_to_h5 "/" (.cons "a" (HVal.int 1) .nil) = .ok (("/" ++ "a", HVal.int 1) :: ws)) :=
  ⟨(dict_to_h5_error_behavior "/" "f" "m" (HVal.int 1) (.cons "f" (HVal.func 0) .nil) .nil).1
      (by simp [hasFunctionValue, valHasFunction]),
    (dict_to_h5_error_behavior "/" "a" "m" (HVal.int 1) (.cons "a" (HVal.int 1) .nil) .nil).2.1
      (by simp [hasFunctionValue, valHasFunction]),
    (dict_to_h5_error_behavior "/" "m" "method" (HVal.int 1) .nil .nil).2.2.1,
    (dict_to_h5_error_behavior "/" "a" "m" (HVal.int 1) .nil .nil).2.2.2 rfl
      (by simp [hasFunctionValue])⟩

theorem map_eq_on (l : List γ) (f g : γ → β) (h : ∀ a ∈ l, f a = g a) :
    l.map f = l.map g := by
  induction l with
  | nil => rfl
  | cons x xs ih =>
    simp only [List.map_cons, h x (by simp)]
    rw [ih (fun a ha => h a (by simp [ha]))]

theorem range_map_shift (g : ℕ → β) (n s : ℕ) :
    (List.range (n + 1)).map (fun j => g (s + j)) =
      g s :: (List.range n).map (fun j => g (s + 1 + j)) := by
  rw [List.range_succ_eq_map]
  simp only [List.map_cons, List.map_map, Nat.add_zero]
  refine congrArg (g s :: ·) ?_
  refine map_eq_on _ _ _ (fun a _ => ?_)
  simp only [Function.comp_apply]
  congr 1
  omega

theorem set_num_of_loaded_sims_eq_length (l : List L) :
    set_num_of_loaded_sims l = l.length := by
  suffices h : ∀ n, l.foldl (fun n _ => n + 1) n = n + l.length by
    simpa [set_num_of_loaded_sims] using h 0
  induction l with
  | nil => simp
  | cons x xs ih =>
    intro n
    simp only [List.foldl_cons, List.length_cons, ih]
    omega

theorem simLoopAux_ok (inp out : ℕ → Record α) (M : ℕ) :
    ∀ fuel count (f : OpenFiles α), M ≤ count + fuel →
      simLoopAux (okTrials inp out) M fuel count f =
        (max count M,
          ⟨f.inputs ++ (List.range (M - count)).map (fun j => inp (count + 1 + j)),
            f.outputs ++ (List.range (M - count)).map (fun j => out (count + 1 + j)),
            f.errors⟩,
          none) := by
  intro fuel
  induction fuel with
  | zero =>
    intro count f h
    have hint : M - count = 0 := by omega
    have hmax : max count M = count := by omega
    simp [simLoopAux, hint, hmax]
  | succ fuel ih =>
    intro count f h
    by_cases hlt : count < M
    · have hrange : M - count = (M - (count + 1)) + 1 := by omega
      have hmax : max count M = max (count + 1) M := by omega
      simp only [simLoopAux, hlt, if_true, okTrials]
      rw [ih (count + 1) ⟨f.inputs ++ [inp (count + 1)], f.outputs ++ [out (count + 1)], f.errors⟩
        (by omega)]
      rw [hrange, hmax, range_map_shift inp, range_map_shift out]
      simp
    · have hint : M - count = 0 := by omega
      have hmax : max count M = count := by omega
      simp [simLoopAux, hlt, hint, hmax]

theorem simulate_ok_eq (M : ℕ) (append : Bool) (inp out : ℕ → Record α) (st : McState α) :
    simulate_ok M append inp out st =
      finalize_simulation (max (initialIterationCount append st.numLoaded) M)
        ⟨(if append then st.inputsFile else []) ++
            (List.range (M - initialIterationCount append st.numLoaded)).map
              (fun j => inp (initialIterationCount append st.numLoaded + 1 + j)),
          (if append then st.outputsFile else []) ++
            (List.range (M - initialIterationCount append st.numLoaded)).map
              (fun j => out (initialIterationCount append st.numLoaded + 1 + j)),
          (if append then st.errorFile else [])⟩ := by
  have hfuel : M ≤ initialIterationCount append st.numLoaded +
      (M - initialIterationCount append st.numLoaded) := by omega
  cases append with
  | false =>
    simp only [simulate_ok, simulate, simLoop,
      simLoopAux_ok inp out M _ _ _ hfuel]
    rfl
  | true =>
    simp only [simulate_ok, simulate, simLoop,
      simLoopAux_ok inp out M _ _ _ hfuel]
    rfl

theorem simulate_ok_counts (M : ℕ) (append : Bool) (inp out : ℕ → Record α)
    (st : McState α) :
    (simulate_ok M append inp out st).outputsFile.length =
        (if append then st.outputsFile.length else 0) +
          (M - initialIterationCount append st.numLoaded) ∧
    (simulate_ok M append inp out st).numLoaded =
        (if append then st.outputsFile.length else 0) +
          (M - initialIterationCount append st.numLoaded) ∧
    (simulate_ok M append inp out st).iterationCount =
        max (initialIterationCount append st.numLoaded) M ∧
    (simulate_ok M append inp out st).outputsLog =
        (simulate_ok M append inp out st).outputsFile := by
  rw [simulate_ok_eq]
  cases append <;>
    simp [finalize_simulation, set_num_of_loaded_sims_eq_length, set_outputs_log]

/-- Claim C1, amended: after `simulate(N, append=False)` the outputs log
has exactly `N` lines and `num_of_loaded_sims == N`; a subsequent
`simulate(M, append=True)` leaves an outputs log of exactly `max N M`
lines (that is, `max 0 (M - N)` additional trials, not `M` additional
trials) and `num_of_loaded_sims == max N M`; the iteration counter is
initialized to the count of already-loaded output records when appending
and to zero when overwriting. -/
theorem append_totals (N M : ℕ) (inp out inp2 out2 : ℕ → Record α) (st0 : McState α) :
    (simulate_ok N false inp out st0).outputsFile.length = N ∧
    (simulate_ok N false inp out st0).numLoaded = N ∧
    (simulate_ok M true inp2 out2 (simulate_ok N false inp out st0)).outputsFile.length =
      max N M ∧
    (simulate_ok M true inp2 out2 (simulate_ok N false inp out st0)).numLoaded = max N M ∧
    initialIterationCount true N = N ∧
    initialIterationCount false N = 0 := by
  obtain ⟨h1, h2, -, -⟩ := simulate_ok_counts N false inp out st0
  simp [initialIterationCount] at h1 h2
  have hlen : (simulate_ok N false inp out st0).outputsFile.length = N := by omega
  have hnum : (simulate_ok N false inp out st0).numLoaded = N := by omega
  obtain ⟨g1, g2, -, -⟩ :=
    simulate_ok_counts M true inp2 out2 (simulate_ok N false inp out st0)
  simp [initialIterationCount, hlen, hnum] at g1 g2
  refine ⟨hlen, hnum, ?_, ?_, by simp [initialIterationCount], by simp [initialIterationCount]⟩
  · omega
  · omega

/-- Counterexample to claim C1 as stated: with `N = 1` prior trial, a
call `simulate(1, append=True)` leaves the outputs log at `1` line, not
`N + M = 2` lines — the argument is a total target, so no new trial runs
at all. -/
theorem append_totals_counterexample :
    (simulate_ok 1 true demo_inputs demo_outputs
        (simulate_ok 1 false demo_inputs demo_outputs empty_state)).outputsFile.length = 1 ∧
    ¬ ((simulate_ok 1 true demo_inputs demo_outputs
        (simulate_ok 1 false demo_inputs demo_outputs empty_state)).outputsFile.length
        = 1 + 1) := by
  decide

/-- Claim C9: in sequential mode `number_of_simulations` is a total
target — `simulate(M, append=True)` runs exactly `max 0 (M -
num_of_loaded_sims)` new trials (one output line each), leaves the
iteration counter at `max num_of_loaded_sims M`, and when
`num_of_loaded_sims >= M` no trial runs and the contents of the three
log files are unchanged. -/
theorem simulate_total_target (M : ℕ) (inp out : ℕ → Record α) (st : McState α) :
    (simulate_ok M true inp out st).outputsFile.length =
        st.outputsFile.length + (M - st.numLoaded) ∧
    (simulate_ok M true inp out st).iterationCount = max st.numLoaded M ∧
    (M ≤ st.numLoaded →
      (simulate_ok M true inp out st).inputsFile = st.inputsFile ∧
      (simulate_ok M true inp out st).outputsFile = st.outputsFile ∧
      (simulate_ok M true inp out st).errorFile = st.errorFile) := by
  obtain ⟨h1, -, h3, -⟩ := simulate_ok_counts M true inp out st
  simp only [initialIterationCount, if_true] at h1 h3
  refine ⟨h1, h3, fun hle => ?_⟩
  have hz : M - st.numLoaded = 0 := by omega
  rw [simulate_ok_eq]
  simp [finalize_simulation, initialIterationCount, hz]

/-- A state holding two already-loaded simulations. -/
def two_loaded_state : McState ℕ :=
  ⟨[[("rail_length", 1)], [("rail_length", 2)]],
    [[("apogee", 1)], [("apogee", 2)]], [], 2, [], [], [], [], 0⟩

/-- Witness for C9: with two loaded simulations, `simulate(1,
append=True)` runs no trial and leaves all three files unchanged. -/
theorem simulate_total_target_witness :
    1 ≤ two_loaded_state.numLoaded ∧
    ((simulate_ok 1 true demo_inputs demo_outputs two_loaded_state).inputsFile =
        two_loaded_state.inputsFile ∧
      (simulate_ok 1 true demo_inputs demo_outputs two_loaded_state).outputsFile =
        two_loaded_state.outputsFile ∧
      (simulate_ok 1 true demo_inputs demo_outputs two_loaded_state).errorFile =
        two_loaded_state.errorFile) :=
  ⟨by decide,
    (simulate_total_target 1 demo_inputs demo_outputs two_loaded_state).2.2 (by decide)⟩

theorem simLoopAux_raised (trial : ℕ → TrialOutcome ε α) (M k : ℕ) (e : ε)
    (w : Option (Record α)) (d : Record α) (hfail : trial (k + 1) = .raised e w d) :
    ∀ fuel count (f : OpenFiles α), M ≤ count + fuel → count ≤ k → k < M →
      (∀ j, count < j → j ≤ k → ∃ i o, trial j = .ok i o) →
      ∃ ins outs,
        outs.length = k - count ∧
        (∀ r ∈ outs, ∃ j i, count < j ∧ j ≤ k ∧ trial j = .ok i r) ∧
        simLoopAux trial M fuel count f =
          (k + 1, ⟨f.inputs ++ ins ++ w.toList, f.outputs ++ outs, f.errors⟩, some (e, d)) := by
  intro fuel
  induction fuel with
  | zero =>
    intro count f hM hck hkM hok
    exact absurd hM (by omega)
  | succ fuel ih =>
    intro count f hM hck hkM hok
    have hlt : count < M := by omega
    rcases eq_or_lt_of_le hck with rfl | hck'
    · refine ⟨[], [], by simp, by simp, ?_⟩
      simp [simLoopAux, hlt, hfail]
    · obtain ⟨i, o, htrial⟩ := hok (count + 1) (by omega) (by omega)
      obtain ⟨ins, outs, hlen, hmem, heq⟩ :=
        ih (count + 1) ⟨f.inputs ++ [i], f.outputs ++ [o], f.errors⟩ (by omega) (by omega) hkM
          (fun j h1 h2 => hok j (by omega) h2)
      refine ⟨i :: ins, o :: outs, by simp [hlen]; omega, ?_, ?_⟩
      · intro r hr
        rcases List.mem_cons.mp hr with rfl | hr'
        · exact ⟨count + 1, i, by omega, by omega, htrial⟩
        · obtain ⟨j, i', hj1, hj2, hj3⟩ := hmem r hr'
          exact ⟨j, i', by omega, hj2, hj3⟩
      · simp only [simLoopAux, hlt, if_true, htrial, heq]
        simp

/-- Claim C3: in sequential mode, when the trial after `k` successful
ones raises a non-interrupt exception, the value `self._inputs_dict`
holds at the raise is written as one JSON line to the error file, the
three files are closed, and the same exception is re-raised
(`SimResult.errored` with the same exception value); every output record
written by a previously completed trial of the run — and every
previously loaded record — is still in the outputs file. -/
theorem error_logged_and_reraised (st : McState α) (M k : ℕ)
    (trial : ℕ → TrialOutcome ε α) (e : ε) (w : Option (Record α)) (d : Record α)
    (hk : st.numLoaded ≤ k) (hkM : k < M)
    (hok : ∀ j, st.numLoaded < j → j ≤ k → ∃ i o, trial j = .ok i o)
    (hfail : trial (k + 1) = .raised e w d) :
    ∃ fs : OpenFiles α,
      simulate M true trial st = .errored e fs ∧
      fs.errors = st.errorFile ++ [d] ∧
      fs.outputs.take st.outputsFile.length = st.outputsFile ∧
      fs.outputs.length = st.outputsFile.length + (k - st.numLoaded) ∧
      (∀ r ∈ fs.outputs.drop st.outputsFile.length,
        ∃ j i, st.numLoaded < j ∧ j ≤ k ∧ trial j = .ok i r) := by
  obtain ⟨ins, outs, hlen, hmem, heq⟩ :=
    simLoopAux_raised trial M k e w d hfail (M - st.numLoaded) st.numLoaded
      ⟨st.inputsFile, st.outputsFile, st.errorFile⟩ (by omega) hk hkM hok
  refine ⟨⟨st.inputsFile ++ ins ++ w.toList, st.outputsFile ++ outs, st.errorFile ++ [d]⟩,
    ?_, rfl, ?_, ?_, ?_⟩
  · simp only [simulate, simLoop, initialIterationCount, if_true, heq]
  · exact List.take_left st.outputsFile outs
  · simp [hlen]
  · rw [List.drop_left]
    exact hmem

/-- A trial source whose second trial raises exception `7` with
`_inputs_dict` holding `[("bad_input", 0)]`. -/
def failing_trial : ℕ → TrialOutcome ℕ ℕ :=
  fun j =>
    if j = 2 then .raised 7 none [("bad_input", 0)]
    else .ok [("rail_length", j)] [("apogee", j)]

/-- A state holding one already-loaded simulation. -/
def one_loaded_state : McState ℕ :=
  ⟨[[("rail_length", 1)]], [[("apogee", 1)]], [], 1, [], [], [], [], 0⟩

/-- Witness for C3: a run of `simulate(5, append=True)` over one loaded
simulation whose first new trial raises exception `7`. -/
theorem error_logged_and_reraised_witness :
    ∃ fs : OpenFiles ℕ,
      simulate 5 true failing_trial one_loaded_state = .errored 7 fs ∧
      fs.errors = one_loaded_state.errorFile ++ [[("bad_input", 0)]] ∧
      fs.outputs.take one_loaded_state.outputsFile.length =
        one_loaded_state.outputsFile ∧
      fs.outputs.length = one_loaded_state.outputsFile.length + (1 - 1) ∧
      (∀ r ∈ fs.outputs.drop one_loaded_state.outputsFile.length,
        ∃ j i, one_loaded_state.numLoaded < j ∧ j ≤ 1 ∧ failing_trial j = .ok i r) := by
  have h := error_logged_and_reraised one_loaded_state 5 1 failing_trial 7 none
    [("bad_input", 0)] (by decide) (by decide)
    (fun j h1 h2 => absurd h2 (by simp [one_loaded_state] at h1; omega)) (by rfl)
  simpa [one_loaded_state] using h

theorem hasKey_eq_isSome (k : String) (d : List (String × β)) :
    hasKey k d = (lookupVal k d).isSome := by
  induction d with
  | nil => rfl
  | cons p rest ih =>
    simp only [hasKey, List.any_cons] at ih ⊢
    cases hb : p.1 == k with
    | true => simp [lookupVal, hb]
    | false => simp [lookupVal, hb, ih]

theorem hasKey_iff_mem (k : String) (d : List (String × β)) :
    hasKey k d = true ↔ k ∈ d.map Prod.fst := by
  simp only [hasKey, List.any_eq_true, List.mem_map, beq_iff_eq]

theorem lookupVal_eq_none_of_not_mem (k : String) (d : List (String × β))
    (h : k ∉ d.map Prod.fst) : lookupVal k d = none := by
  induction d with
  | nil => rfl
  | cons p rest ih =>
    simp only [List.map_cons, List.mem_cons, not_or] at h
    have hb : (p.1 == k) = false := by
      simp only [beq_eq_false_iff_ne, ne_eq]
      exact fun hh => h.1 hh.symm
    simp [lookupVal, hb, ih h.2]

theorem lookupVal_map_update_self (k : String) (v : α) (res : List (String × List α)) :
    lookupVal k (res.map (fun p => if p.1 == k then (p.1, p.2 ++ [v]) else p)) =
      (lookupVal k res).map (fun vs => vs ++ [v]) := by
  induction res with
  | nil => rfl
  | cons p rest ih =>
    cases hb : p.1 == k with
    | true => simp [lookupVal, hb]
    | false =>
      simp [lookupVal, hb] at ih ⊢
      exact ih

theorem lookupVal_map_update_ne (k k' : String) (hne : k' ≠ k) (v : α)
    (res : List (String × List α)) :
    lookupVal k' (res.map (fun p => if p.1 == k then (p.1, p.2 ++ [v]) else p)) =
      lookupVal k' res := by
  induction res with
  | nil => rfl
  | cons p rest ih =>
    cases hb : p.1 == k with
    | true =>
      have hpk : p.1 = k := by simpa [beq_iff_eq] using hb
      have hb2 : (p.1 == k') = false := by
        simp only [beq_eq_false_iff_ne, ne_eq, hpk]
        exact fun hh => hne hh.symm
      simp [lookupVal, hb, hb2] at ih ⊢
      exact ih
    | false =>
      cases hb2 : p.1 == k' with
      | true => simp [lookupVal, hb, hb2]
      | false =>
        simp [lookupVal, hb, hb2] at ih ⊢
        exact ih

theorem lookupVal_append_self (k : String) (res : List (String × List α)) (v : α)
    (h : hasKey k res = false) :
    lookupVal k (res ++ [(k, [v])]) = some [v] := by
  induction res with
  | nil => simp [lookupVal]
  | cons p rest ih =>
    simp only [hasKey, List.any_cons, Bool.or_eq_false_iff] at h
    simp [lookupVal, h.1, ih (by simpa [hasKey] using h.2)]

theorem lookupVal_append_ne (k k' : String) (hne : k' ≠ k)
    (res : List (String × List α)) (v : α) :
    lookupVal k' (res ++ [(k, [v])]) = lookupVal k' res := by
  induction res with
  | nil =>
    have hb : (k == k') = false := by
      simp only [beq_eq_false_iff_ne, ne_eq]
      exact fun hh => hne hh.symm
    simp [lookupVal, hb]
  | cons p rest ih =>
    cases hb : p.1 == k' with
    | true => simp [lookupVal, hb]
    | false => simp [lookupVal, hb, ih]

theorem lookupVal_add_result_self (res : List (String × List α)) (k : String) (v : α) :
    lookupVal k (add_result res k v) = some ((lookupVal k res).getD [] ++ [v]) := by
  by_cases h : hasKey k res = true
  · rw [add_result, if_pos h, lookupVal_map_update_self]
    have hs := hasKey_eq_isSome k res
    rw [h] at hs
    cases hl : lookupVal k res with
    | none => rw [hl] at hs; simp at hs
    | some vs => simp [hl]
  · have hfalse : hasKey k res = false := by
      revert h
      cases hasKey k res <;> simp
    rw [add_result, if_neg h, lookupVal_append_self k res v hfalse]
    have hnone : lookupVal k res = none := by
      have hs := hasKey_eq_isSome k res
      rw [hfalse] at hs
      cases hl : lookupVal k res with
      | none => rfl
      | some vs => rw [hl] at hs; simp at hs
    simp [hnone]

theorem lookupVal_add_result_ne (res : List (String × List α)) (k k' : String)
    (hne : k' ≠ k) (v : α) :
    lookupVal k' (add_result res k v) = lookupVal k' res := by
  by_cases h : hasKey k res = true
  · rw [add_result, if_pos h]
    exact lookupVal_map_update_ne k k' hne v res
  · rw [add_result, if_neg h]
    exact lookupVal_append_ne k k' hne res v

theorem record_fold_lookup (k : String) :
    ∀ (r : Record α), (r.map Prod.fst).Nodup →
      ∀ res, lookupVal k (r.foldl (fun res2 kv => add_result res2 kv.1 kv.2) res) =
        match lookupVal k r with
        | some v => some ((lookupVal k res).getD [] ++ [v])
        | none => lookupVal k res := by
  intro r
  induction r with
  | nil =>
    intro _ res
    rfl
  | cons kv rest ih =>
    intro hnd res
    simp only [List.map_cons, List.nodup_cons] at hnd
    obtain ⟨hk1, hndrest⟩ := hnd
    simp only [List.foldl_cons]
    rw [ih hndrest (add_result res kv.1 kv.2)]
    cases hb : kv.1 == k with
    | true =>
      have hpk : kv.1 = k := by simpa [beq_iff_eq] using hb
      subst hpk
      have hrest : lookupVal kv.1 rest = none :=
        lookupVal_eq_none_of_not_mem kv.1 rest hk1
      rw [hrest]
      simp [lookupVal, lookupVal_add_result_self]
    | false =>
      have hne : k ≠ kv.1 := by
        intro hh
        rw [hh] at hb
        simp at hb
      rw [lookupVal_add_result_ne res kv.1 k hne kv.2]
      simp only [lookupVal, hb]
      cases hl : lookupVal k rest <;> simp

theorem logs_fold_lookup (k : String) :
    ∀ (logs : List (Record α)), (∀ r ∈ logs, (r.map Prod.fst).Nodup) →
      ∀ res, lookupVal k
          (logs.foldl
            (fun res record => record.foldl (fun res2 kv => add_result res2 kv.1 kv.2) res)
            res) =
        match lookupVal k res with
        | some vs => some (vs ++ logs.filterMap (lookupVal k))
        | none =>
          if logs.any (hasKey k) then some (logs.filterMap (lookupVal k)) else none := by
  intro logs
  induction logs with
  | nil =>
    intro _ res
    cases hl : lookupVal k res <;> simp [hl]
  | cons r rest ih =>
    intro hnd res
    simp only [List.foldl_cons]
    rw [ih (fun r' hr' => hnd r' (by simp [hr'])) _]
    rw [record_fold_lookup k r (hnd r (by simp)) res]
    cases hr : lookupVal k r with
    | some v =>
      have hkey : hasKey k r = true := by rw [hasKey_eq_isSome, hr]; rfl
      cases hl : lookupVal k res with
      | some vs => simp [hkey, List.filterMap_cons, hr]
      | none => simp [hkey, List.filterMap_cons, hr]
    | none =>
      have hkey : hasKey k r = false := by rw [hasKey_eq_isSome, hr]; rfl
      cases hl : lookupVal k res with
      | some vs => simp [hkey, List.filterMap_cons, hr]
      | none => simp [hkey, List.filterMap_cons, hr]

theorem filterMap_length_eq_filter (k : String) (logs : List (Record α)) :
    (logs.filterMap (lookupVal k)).length = (logs.filter (hasKey k)).length := by
  induction logs with
  | nil => rfl
  | cons r rest ih =>
    cases hr : lookupVal k r with
    | some v =>
      have hkey : hasKey k r = true := by rw [hasKey_eq_isSome, hr]; rfl
      simp [List.filterMap_cons, List.filter_cons, hr, hkey, ih]
    | none =>
      have hkey : hasKey k r = false := by rw [hasKey_eq_isSome, hr]; rfl
      simp [List.filterMap_cons, List.filter_cons, hr, hkey, ih]

/-- Claim C5, amended: after a reload, `len(outputs_log) ==
num_of_loaded_sims`, and for every key, `results[key]` is the ordered
list of that key's values across exactly the records that contain the
key — its length is the number of such records (not
`num_of_loaded_sims`; records lacking the key contribute nothing and no
padding is inserted, so the length is strictly smaller whenever some
record lacks the key). -/
theorem reload_invariants (jsonLoads : L → Record α) (lines : List L)
    (logs : List (Record α)) (key : String)
    (hnd : ∀ r ∈ logs, (r.map Prod.fst).Nodup) :
    (set_outputs_log jsonLoads lines).length = set_num_of_loaded_sims lines ∧
    lookupVal key (set_results logs) =
      (if logs.any (hasKey key) then some (logs.filterMap (lookupVal key)) else none) ∧
    (logs.filterMap (lookupVal key)).length = (logs.filter (hasKey key)).length := by
  refine ⟨?_, ?_, filterMap_length_eq_filter key logs⟩
  · rw [set_outputs_log, set_num_of_loaded_sims_eq_length, List.length_map]
  · rw [set_results, logs_fold_lookup key logs hnd []]
    rfl

/-- Counterexample to claim C5 as stated: two loaded records, the second
lacking key `"a"` — `results["a"]` has length `1`, not
`num_of_loaded_sims = 2`. -/
theorem reload_invariants_counterexample :
    set_num_of_loaded_sims [[("a", (1 : ℕ))], []] = 2 ∧
    lookupVal "a" (set_results [[("a", (1 : ℕ))], []]) = some [1] ∧
    ¬ (([1] : List ℕ).length = set_num_of_loaded_sims [[("a", (1 : ℕ))], []]) := by
  decide

/-- Witness for the amended C5 at the counterexample's input. -/
theorem reload_invariants_witness :
    (∀ r ∈ [[("a", (1 : ℕ))], []], (r.map Prod.fst).Nodup) ∧
    ((set_outputs_log id [[("a", (1 : ℕ))], []]).length =
        set_num_of_loaded_sims [[("a", (1 : ℕ))], []] ∧
      lookupVal "a" (set_results [[("a", (1 : ℕ))], []]) =
        (if [[("a", (1 : ℕ))], []].any (hasKey "a") then
          some ([[("a", (1 : ℕ))], []].filterMap (lookupVal "a")) else none) ∧
      ([[("a", (1 : ℕ))], []].filterMap (lookupVal "a")).length =
        ([[("a", (1 : ℕ))], []].filter (hasKey "a")).length) :=
  ⟨by decide, reload_invariants id [[("a", (1 : ℕ))], []] [[("a", (1 : ℕ))], []] "a" (by decide)⟩

theorem lookupVal_set_processed (field : String) (results : List (String × List ℚ)) :
    lookupVal field (set_processed_results results) =
      (lookupVal field results).map (fun vs => (np_mean vs, np_std vs)) := by
  induction results with
  | nil => rfl
  | cons p rest ih =>
    simp only [set_processed_results, List.map_cons] at ih ⊢
    cases hb : p.1 == field with
    | true => simp [lookupVal, hb]
    | false => simp [lookupVal, hb, ih]

theorem list_sum_sq_expand (m : ℚ) (vs : List ℚ) :
    (vs.map (fun v => (v - m) ^ 2)).sum =
      (vs.map (fun v => v ^ 2)).sum - 2 * m * vs.sum + (vs.length : ℚ) * m ^ 2 := by
  induction vs with
  | nil => simp
  | cons x xs ih =>
    simp only [List.map_cons, List.sum_cons, List.length_cons, ih]
    push_cast
    ring

theorem np_var_eq_moments (vs : List ℚ) (h : vs ≠ []) :
    np_var vs = (vs.map (fun v => v ^ 2)).sum / (vs.length : ℚ) -
      (vs.sum / (vs.length : ℚ)) ^ 2 := by
  have hK : (vs.length : ℚ) ≠ 0 := by
    have : vs.length ≠ 0 := by
      simpa [List.length_eq_zero] using h
    exact_mod_cast this
  rw [np_var, np_mean, list_sum_sq_expand]
  field_simp
  ring

theorem np_var_nonneg (vs : List ℚ) : 0 ≤ np_var vs := by
  apply div_nonneg
  · apply List.sum_nonneg
    intro x hx
    simp only [List.mem_map] at hx
    obtain ⟨v, -, rfl⟩ := hx
    positivity
  · positivity

/-- Claim C6: for a field whose collected values are `v_1 .. v_K`
(`K ≥ 1`), `processed_results[field]` is the pair of the arithmetic mean
`(Σ v_i) / K` and the population standard deviation — the nonnegative
real number whose square is the population variance
`(Σ v_i²) / K - ((Σ v_i) / K)²`. -/
theorem processed_results_mean_std (results : List (String × List ℚ)) (field : String)
    (vs : List ℚ) (h1 : lookupVal field results = some vs) (h2 : vs ≠ []) :
    lookupVal field (set_processed_results results) =
      some (vs.sum / (vs.length : ℚ), np_std vs) ∧
    np_mean vs = vs.sum / (vs.length : ℚ) ∧
    0 ≤ np_std vs ∧
    (np_std vs) ^ 2 =
      (((vs.map (fun v => v ^ 2)).sum / (vs.length : ℚ) -
        (vs.sum / (vs.length : ℚ)) ^ 2 : ℚ) : ℝ) := by
  refine ⟨?_, rfl, Real.sqrt_nonneg _, ?_⟩
  · rw [lookupVal_set_processed, h1]
    rfl
  · rw [np_std, Real.sq_sqrt (by exact_mod_cast np_var_nonneg vs),
      np_var_eq_moments vs h2]

/-- Witness for C6 at the spec's example values `[1.0, 2.0, 3.0]`:
their mean is `2` and the standard deviation squares to the population
variance. -/
theorem processed_results_mean_std_witness :
    lookupVal "apogee" [("apogee", [(1 : ℚ), 2, 3])] = some [(1 : ℚ), 2, 3] ∧
    ([(1 : ℚ), 2, 3] ≠ []) ∧
    np_mean [(1 : ℚ), 2, 3] = 2 ∧
    (lookupVal "apogee" (set_processed_results [("apogee", [(1 : ℚ), 2, 3])]) =
        some (([(1 : ℚ), 2, 3]).sum / (([(1 : ℚ), 2, 3]).length : ℚ),
          np_std [(1 : ℚ), 2, 3]) ∧
      np_mean [(1 : ℚ), 2, 3] =
        ([(1 : ℚ), 2, 3]).sum / (([(1 : ℚ), 2, 3]).length : ℚ) ∧
      0 ≤ np_std [(1 : ℚ), 2, 3] ∧
      (np_std [(1 : ℚ), 2, 3]) ^ 2 =
        (((([(1 : ℚ), 2, 3]).map (fun v => v ^ 2)).sum / (([(1 : ℚ), 2, 3]).length : ℚ) -
          (([(1 : ℚ), 2, 3]).sum / (([(1 : ℚ), 2, 3]).length : ℚ)) ^ 2 : ℚ) : ℝ)) :=
  ⟨by rfl, by simp, by norm_num [np_mean],
    processed_results_mean_std [("apogee", [(1 : ℚ), 2, 3])] "apogee" [(1 : ℚ), 2, 3]
      (by rfl) (by simp)⟩

theorem check_items_all_valid (lst : List ExportItem)
    (h : ∀ e ∈ lst, ∃ s, s ∈ exportables ∧ e = ExportItem.str s) :
    check_items lst = none := by
  induction lst with
  | nil => rfl
  | cons e rest ih =>
    obtain ⟨s, hs, rfl⟩ := h e (by simp)
    simp [check_items, hs, ih (fun e' he' => h e' (by simp [he']))]

theorem check_items_type_error (lst : List ExportItem)
    (hbad : ∃ t, ExportItem.nonString t ∈ lst)
    (hstr : ∀ s, ExportItem.str s ∈ lst → s ∈ exportables) :
    check_items lst = some (.typeError "Variables in export_list must be strings.") := by
  induction lst with
  | nil =>
    obtain ⟨t, ht⟩ := hbad
    simp at ht
  | cons e rest ih =>
    cases e with
    | nonString t => simp [check_items]
    | str s =>
      have hs : s ∈ exportables := hstr s (by simp)
      obtain ⟨t, ht⟩ := hbad
      rcases List.mem_cons.mp ht with heq | ht'
      · exact absurd heq (by simp)
      · exact (by simp [check_items, hs,
          ih ⟨t, ht'⟩ (fun s' hs' => hstr s' (by simp [hs']))])

theorem check_items_value_error (lst : List ExportItem)
    (hall : ∀ e ∈ lst, ∃ s, e = ExportItem.str s)
    (hbad : ∃ s, ExportItem.str s ∈ lst ∧ s ∉ exportables) :
    ∃ a, a ∉ exportables ∧
      check_items lst =
        some (.valueError ("Attribute " ++ a ++ " can not be exported. Check export_list.")) := by
  induction lst with
  | nil =>
    obtain ⟨s, hs, -⟩ := hbad
    simp at hs
  | cons e rest ih =>
    obtain ⟨s0, rfl⟩ := hall e (by simp)
    by_cases hs0 : s0 ∈ exportables
    · have hbad' : ∃ s, ExportItem.str s ∈ rest ∧ s ∉ exportables := by
        obtain ⟨s, hs, hsn⟩ := hbad
        rcases List.mem_cons.mp hs with heq | h'
        · obtain rfl : s = s0 := by injection heq
          exact absurd hs0 hsn
        · exact ⟨s, h', hsn⟩
      obtain ⟨a, ha, hres⟩ := ih (fun e' he' => hall e' (by simp [he'])) hbad'
      exact ⟨a, ha, by simp [check_items, hs0, hres]⟩
    · exact ⟨s0, hs0, by simp [check_items, hs0]⟩

theorem dictAssign_keys (d : List (String × β)) (k : String) (v : β) :
    (dictAssign d k v).map Prod.fst =
      if k ∈ d.map Prod.fst then d.map Prod.fst else d.map Prod.fst ++ [k] := by
  by_cases h : hasKey k d = true
  · have hmem : k ∈ d.map Prod.fst := (hasKey_iff_mem k d).mp h
    rw [dictAssign, if_pos h, if_pos hmem, List.map_map]
    refine map_eq_on d _ _ (fun p _ => ?_)
    simp only [Function.comp_apply]
    cases hb : p.1 == k with
    | true =>
      have : p.1 = k := by simpa [beq_iff_eq] using hb
      simp [hb, this]
    | false => simp [hb]
  · have hmem : k ∉ d.map Prod.fst := fun hm => h ((hasKey_iff_mem k d).mpr hm)
    rw [dictAssign, if_neg h, if_neg hmem]
    simp

theorem dictAssign_fresh (d : List (String × β)) (k : String) (v : β)
    (h : k ∉ d.map Prod.fst) : dictAssign d k v = d ++ [(k, v)] := by
  rw [dictAssign, if_neg (fun hk => h ((hasKey_iff_mem k d).mp hk))]

theorem foldl_dictAssign_keys (g : String → β) (lst : List String) :
    ∀ acc : List (String × β), (acc.map Prod.fst).Nodup →
      ((lst.foldl (fun results item => dictAssign results item (g item)) acc).map
        Prod.fst).Nodup ∧
      (∀ s, s ∈ (lst.foldl (fun results item => dictAssign results item (g item)) acc).map
          Prod.fst ↔ s ∈ acc.map Prod.fst ∨ s ∈ lst) := by
  induction lst with
  | nil =>
    intro acc h
    exact ⟨h, fun s => by simp⟩
  | cons k rest ih =>
    intro acc hacc
    have hkeys := dictAssign_keys acc k (g k)
    simp only [List.foldl_cons]
    by_cases hmem : k ∈ acc.map Prod.fst
    · rw [if_pos hmem] at hkeys
      obtain ⟨hnd, hiff⟩ := ih (dictAssign acc k (g k)) (by rw [hkeys]; exact hacc)
      refine ⟨hnd, fun s => ?_⟩
      rw [hiff s, hkeys]
      simp only [List.mem_cons]
      constructor
      · rintro (h | h)
        · exact Or.inl h
        · exact Or.inr (Or.inr h)
      · rintro (h | rfl | h)
        · exact Or.inl h
        · exact Or.inl hmem
        · exact Or.inr h
    · rw [if_neg hmem] at hkeys
      have hnodup2 : ((dictAssign acc k (g k)).map Prod.fst).Nodup := by
        rw [hkeys, List.nodup_append]
        exact ⟨hacc, by simp, by
          intro a ha hb
          simp only [List.mem_singleton] at hb
          subst hb
          exact hmem ha⟩
      obtain ⟨hnd, hiff⟩ := ih (dictAssign acc k (g k)) hnodup2
      refine ⟨hnd, fun s => ?_⟩
      rw [hiff s, hkeys]
      simp only [List.mem_append, List.mem_singleton, List.mem_cons]
      tauto

/-- Claim C4: constructing with an `export_list` containing a non-string
raises `TypeError` (when the string entries are themselves valid, so the
non-string is the offending entry regardless of `set` iteration order),
one containing a string outside the fixed `exportables` set raises
`ValueError` naming an invalid attribute, a nonempty list of valid
attribute strings is accepted unchanged — all inside `__init__`, before
any trial can run — and the output record written for a trial has
exactly the keys of the accepted list. -/
theorem export_list_validation (lst : List ExportItem) (export_list : List String)
    (flight : String → β) :
    ((∃ t, ExportItem.nonString t ∈ lst) →
      (∀ s, ExportItem.str s ∈ lst → s ∈ exportables) →
      check_export_list lst =
        .error (.typeError "Variables in export_list must be strings.")) ∧
    ((∀ e ∈ lst, ∃ s, e = ExportItem.str s) →
      (∃ s, ExportItem.str s ∈ lst ∧ s ∉ exportables) →
      ∃ a, a ∉ exportables ∧
        check_export_list lst =
          .error (.valueError
            ("Attribute " ++ a ++ " can not be exported. Check export_list."))) ∧
    (lst ≠ [] → (∀ e ∈ lst, ∃ s, s ∈ exportables ∧ e = ExportItem.str s) →
      check_export_list lst = .ok lst) ∧
    (((export_flight_data export_list flight).map Prod.fst).Nodup ∧
      ∀ s, s ∈ (export_flight_data export_list flight).map Prod.fst ↔ s ∈ export_list) := by
  refine ⟨?_, ?_, ?_, ?_⟩
  · intro hbad hstr
    have hne : lst ≠ [] := by
      obtain ⟨t, ht⟩ := hbad
      intro he
      subst he
      simp at ht
    simp [check_export_list, hne, check_items_type_error lst hbad hstr]
  · intro hall hbad
    have hne : lst ≠ [] := by
      obtain ⟨s, hs, -⟩ := hbad
      intro he
      subst he
      simp at hs
    obtain ⟨a, ha, hitems⟩ := check_items_value_error lst hall hbad
    exact ⟨a, ha, by simp [check_export_list, hne, hitems]⟩
  · intro hne hval
    simp [check_export_list, hne, check_items_all_valid lst hval]
  · obtain ⟨h1, h2⟩ := foldl_dictAssign_keys flight export_list [] (by simp)
    refine ⟨h1, fun s => ?_⟩
    rw [export_flight_data, h2 s]
    simp

/-- Witness for C4: `[123]` (a non-string) raises `TypeError`,
`["not_a_real_field"]` raises `ValueError` before any trial runs,
`["apogee", "t_final"]` is accepted, and its output record has exactly
those two keys. -/
theorem export_list_validation_witness :
    check_export_list [ExportItem.nonString "int"] =
      .error (.typeError "Variables in export_list must be strings.") ∧
    (∃ a, a ∉ exportables ∧
      check_export_list [ExportItem.str "not_a_real_field"] =
        .error (.valueError
          ("Attribute " ++ a ++ " can not be exported. Check export_list."))) ∧
    check_export_list [ExportItem.str "apogee", ExportItem.str "t_final"] =
      .ok [ExportItem.str "apogee", ExportItem.str "t_final"] ∧
    (((export_flight_data ["apogee", "t_final"] (fun _ => (0 : ℕ))).map Prod.fst).Nodup ∧
      ∀ s, s ∈ (export_flight_data ["apogee", "t_final"] (fun _ => (0 : ℕ))).map Prod.fst ↔
        s ∈ ["apogee", "t_final"]) :=
  ⟨(export_list_validation [ExportItem.nonString "int"] ["apogee", "t_final"]
      (fun _ => (0 : ℕ))).1 ⟨"int", by simp⟩ (fun s hs => by simp at hs),
    (export_list_validation [ExportItem.str "not_a_real_field"] ["apogee", "t_final"]
      (fun _ => (0 : ℕ))).2.1
      (fun e he => ⟨"not_a_real_field", by simpa using he⟩)
      ⟨"not_a_real_field", by simp, by decide⟩,
    (export_list_validation [ExportItem.str "apogee", ExportItem.str "t_final"]
      ["apogee", "t_final"] (fun _ => (0 : ℕ))).2.2.1 (by simp)
      (by
        intro e he
        rcases List.mem_cons.mp he with rfl | he'
        · exact ⟨"apogee", by decide, rfl⟩
        · rcases List.mem_cons.mp he' with rfl | he''
          · exact ⟨"t_final", by decide, rfl⟩
          · simp at he''),
    (export_list_validation [ExportItem.str "apogee", ExportItem.str "t_final"]
      ["apogee", "t_final"] (fun _ => (0 : ℕ))).2.2.2⟩

theorem isinstance_filter_accepts_all (v : PyVal) :
    isinstance_any v inspect_filter_classes = true := by
  cases v <;> rfl

theorem inspect_fold_eq (attrs : List (String × PyVal)) :
    ∀ acc : List (String × PyVal),
      (attrs.map Prod.fst).Nodup →
      (∀ n ∈ attrs.map Prod.fst, n ∉ acc.map Prod.fst) →
      attrs.foldl
        (fun result p =>
          if isinstance_any p.2 inspect_filter_classes && !(starts_with_dunder p.1) then
            dictAssign result p.1 (serialize_if_function p.2)
          else result) acc =
      acc ++ attrs.filterMap
        (fun p =>
          if starts_with_dunder p.1 then none
          else some (p.1, serialize_if_function p.2)) := by
  induction attrs with
  | nil =>
    intro acc _ _
    simp
  | cons p rest ih =>
    intro acc hnd hfresh
    simp only [List.map_cons, List.nodup_cons] at hnd
    obtain ⟨hp, hndr⟩ := hnd
    rw [List.foldl_cons]
    by_cases hpre : starts_with_dunder p.1 = true
    · rw [if_neg (by simp [isinstance_filter_accepts_all, hpre])]
      rw [List.filterMap_cons_none (by simp [hpre])]
      exact ih acc hndr (fun n hn => hfresh n (by simp [hn]))
    · have hpre' : starts_with_dunder p.1 = false := by
        revert hpre
        cases starts_with_dunder p.1 <;> simp
      have hfresh0 : p.1 ∉ acc.map Prod.fst := hfresh p.1 (by simp)
      rw [if_pos (by simp [isinstance_filter_accepts_all, hpre'])]
      rw [dictAssign_fresh acc p.1 _ hfresh0]
      have hsome : (fun q : String × PyVal =>
          if starts_with_dunder q.1 = true then none
          else some (q.1, serialize_if_function q.2)) p =
            some (p.1, serialize_if_function p.2) := by
        simp [hpre']
      rw [@List.filterMap_cons_some (String × PyVal) (String × PyVal)
        (fun q : String × PyVal =>
          if starts_with_dunder q.1 = true then none
          else some (q.1, serialize_if_function q.2))
        p rest (p.1, serialize_if_function p.2) hsome]
      rw [ih (acc ++ [(p.1, serialize_if_function p.2)]) hndr (by
        intro n hn
        have h1 : n ∉ acc.map Prod.fst := hfresh n (by simp [hn])
        have h2 : n ≠ p.1 := fun hc => hp (hc ▸ hn)
        simp [List.map_append, h1, h2])]
      simp

/-- Claim C10: the `isinstance` filter of `inspect_object_attributes`
accepts every Python value (its class tuple ends in `object`), so the
returned mapping has an entry for every attribute of `dir(obj)` whose
name does not start with `"__"`, with `Function` values replaced by
their serialized form; consequently the `"outputs"` record the parallel
worker persists is the full attribute inspection of the `Flight` object
— it has an entry for every such attribute and is not restricted by the
constructor-validated `export_list`. -/
theorem inspect_includes_all_attributes (attrs : List (String × PyVal))
    (hnd : (attrs.map Prod.fst).Nodup) (i : ℕ) (input_parameters : Record PyVal) :
    (∀ v : PyVal, isinstance_any v inspect_filter_classes = true) ∧
    inspect_object_attributes attrs =
      attrs.filterMap
        (fun p =>
          if starts_with_dunder p.1 then none
          else some (p.1, serialize_if_function p.2)) ∧
    (∀ fid, serialize_if_function (PyVal.func fid) = function_serializer fid) ∧
    (worker_export_dict i input_parameters attrs).2.outputs =
      inspect_object_attributes attrs ∧
    (∀ n v, (n, v) ∈ attrs → ¬ (starts_with_dunder n = true) →
      (n, serialize_if_function v) ∈ (worker_export_dict i input_parameters attrs).2.outputs) := by
  have hfold := inspect_fold_eq attrs [] hnd (by simp)
  refine ⟨isinstance_filter_accepts_all, ?_, fun fid => rfl, rfl, ?_⟩
  · simpa [inspect_object_attributes] using hfold
  · intro n v hmem hpre
    have hpre' : starts_with_dunder n = false := by
      revert hpre
      cases starts_with_dunder n <;> simp
    have hin : (n, serialize_if_function v) ∈ attrs.filterMap
        (fun p =>
          if starts_with_dunder p.1 then none
          else some (p.1, serialize_if_function p.2)) :=
      List.mem_filterMap.mpr ⟨(n, v), hmem, by simp [hpre']⟩
    have houts : (worker_export_dict i input_parameters attrs).2.outputs =
        attrs.filterMap
          (fun p =>
            if starts_with_dunder p.1 then none
            else some (p.1, serialize_if_function p.2)) := by
      show inspect_object_attributes attrs = _
      simpa [inspect_object_attributes] using hfold
    rw [houts]
    exact hin

/-- A small `dir(flight)` sample: a dunder method (excluded), a private
field, a numeric result, a `Function`-valued attribute, and an attribute
outside the `exportables` allow-list. -/
def demo_flight_attrs : List (String × PyVal) :=
  [("__init__", .obj "method"), ("_private", .int 1), ("apogee", .float 5),
    ("post_process", .func 3), ("extra_field", .obj "SomeClass")]

/-- Witness for C10 on a concrete attribute list. -/
theorem inspect_includes_all_attributes_witness :
    (demo_flight_attrs.map Prod.fst).Nodup ∧
    inspect_object_attributes demo_flight_attrs =
      demo_flight_attrs.filterMap
        (fun p =>
          if starts_with_dunder p.1 then none
          else some (p.1, serialize_if_function p.2)) ∧
    (("extra_field", serialize_if_function (PyVal.obj "SomeClass")) ∈
      (worker_export_dict 0 [] demo_flight_attrs).2.outputs) :=
  ⟨by decide,
    (inspect_includes_all_attributes demo_flight_attrs (by decide) 0 []).2.1,
    (inspect_includes_all_attributes demo_flight_attrs (by decide) 0 []).2.2.2.2
      "extra_field" (PyVal.obj "SomeClass") (by simp [demo_flight_attrs]) (by decide)⟩

end MonteCarlo
